import Mathlib

/-!
Formal model of the cryptogram node's ledger core, shallowly embedded from
the Rust sources: the block model (`src/blockchain/block.rs`), the chain
manager (`src/blockchain/chain.rs`), the block store
(`src/blockchain/store.rs`) and the peer-to-peer synchronization handlers
(`src/p2p/node.rs`, `src/p2p/p2p.rs`).

Machine integers (`u64`, `usize`) are modelled as `Nat`; all arithmetic in
the sources that could overflow is far below `2^64` on the inputs
considered. Rust `String` is modelled as Lean `String`; where the sources
compare or measure strings byte-wise, the model encodes strings to their
UTF-8 bytes explicitly. Fallible operations return `Except`/`Option`;
`Option.none` models a Rust panic (`unwrap` on `None`/`Err`). The Ed25519
primitive `verify_strict` lives in the external `ed25519_dalek` crate, so
`sign.rs::validate_signature` is modelled as an abstract oracle parameter
`VSig`; everything the sources build on top of it is embedded concretely.
-/

/-! ## Bytes, hex and UTF-8 -/

/-- Lowercase hexadecimal digits, as used by `format!("{:x}", …)`. -/
def hexDigits : List Char := "0123456789abcdef".data

def hexChar (n : Nat) : Char := hexDigits.getD n '0'

/-- Lowercase hex rendering of a byte list (two digits per byte),
as produced by `format!("{:x}", hasher.finalize())`. -/
def bytesToHex (l : List Nat) : String :=
  String.mk (l.foldr (fun b acc => hexChar (b / 16) :: hexChar (b % 16) :: acc) [])

/-- UTF-8 encoding of a single character (code point), byte values as `Nat`. -/
def encChar (c : Char) : List Nat :=
  let n := c.toNat
  if n < 128 then [n]
  else if n < 2048 then [192 + n / 64, 128 + n % 64]
  else if n < 65536 then [224 + n / 4096, 128 + n / 64 % 64, 128 + n % 64]
  else [240 + n / 262144, 128 + n / 4096 % 64, 128 + n / 64 % 64, 128 + n % 64]

def utf8Enc : List Char → List Nat
  | [] => []
  | c :: cs => encChar c ++ utf8Enc cs

/-- The UTF-8 bytes of a string; Rust's `str::as_bytes`. -/
def utf8Bytes (s : String) : List Nat := utf8Enc s.data

/-- Rust's `String::len`: the number of UTF-8 bytes. -/
def utf8Len (s : String) : Nat := (utf8Bytes s).length

/-- Strict lexicographic (byte-wise) order on byte lists; the order LMDB
uses for keys and Rust's `Ord` uses for `String`/`[u8]`. -/
def lexLtBytes : List Nat → List Nat → Bool
  | _, [] => false
  | [], _ :: _ => true
  | a :: as, b :: bs => if a < b then true else if b < a then false else lexLtBytes as bs

/-- Rust's `String` order (`Ord`): byte-wise lexicographic on the UTF-8 bytes. -/
def strLtB (a b : String) : Bool := lexLtBytes (utf8Bytes a) (utf8Bytes b)

/-- Byte-wise prefix test; Rust's `str::starts_with`. -/
def listPrefixOf (p s : List Char) : Bool :=
  match p, s with
  | [], _ => true
  | c :: cs, d :: ds => if c = d then listPrefixOf cs ds else false
  | _ :: _, [] => false

def strStartsWith (s pre : String) : Bool := listPrefixOf pre.data s.data

/-! ## SHA-256 (the `sha2` crate's `Sha256`) -/

def m32 : Nat := 4294967296

def add32 (a b : Nat) : Nat := (a + b) % m32

def rotr32 (k x : Nat) : Nat := (x / 2 ^ k + x % 2 ^ k * 2 ^ (32 - k)) % m32

def shr32 (k x : Nat) : Nat := x / 2 ^ k

def xor3 (a b c : Nat) : Nat := Nat.xor (Nat.xor a b) c

def sigLow0 (x : Nat) : Nat := xor3 (rotr32 7 x) (rotr32 18 x) (shr32 3 x)

def sigLow1 (x : Nat) : Nat := xor3 (rotr32 17 x) (rotr32 19 x) (shr32 10 x)

def sigUp0 (x : Nat) : Nat := xor3 (rotr32 2 x) (rotr32 13 x) (rotr32 22 x)

def sigUp1 (x : Nat) : Nat := xor3 (rotr32 6 x) (rotr32 11 x) (rotr32 25 x)

def chFun (x y z : Nat) : Nat := Nat.xor (Nat.land x y) (Nat.land (Nat.xor x 4294967295) z)

def majFun (x y z : Nat) : Nat :=
  Nat.xor (Nat.xor (Nat.land x y) (Nat.land x z)) (Nat.land y z)

def K256 : List Nat :=
  [1116352408, 1899447441, 3049323471, 3921009573, 961987163,
   1508970993, 2453635748, 2870763221, 3624381080, 310598401,
   607225278, 1426881987, 1925078388, 2162078206, 2614888103,
   3248222580, 3835390401, 4022224774, 264347078, 604807628,
   770255983, 1249150122, 1555081692, 1996064986, 2554220882,
   2821834349, 2952996808, 3210313671, 3336571891, 3584528711,
   113926993, 338241895, 666307205, 773529912, 1294757372,
   1396182291, 1695183700, 1986661051, 2177026350, 2456956037,
   2730485921, 2820302411, 3259730800, 3345764771, 3516065817,
   3600352804, 4094571909, 275423344, 430227734, 506948616,
   659060556, 883997877, 958139571, 1322822218, 1537002063,
   1747873779, 1955562222, 2024104815, 2227730452, 2361852424,
   2428436474, 2756734187, 3204031479, 3329325298]

def H256 : List Nat :=
  [1779033703, 3144134277, 1013904242, 2773480762, 1359893119,
   2600822924, 528734635, 1541459225]

/-- Big-endian 32-bit words from bytes (4 at a time). -/
def bytesToWords : List Nat → List Nat
  | a :: b :: c :: d :: rest => (((a * 256 + b) * 256 + c) * 256 + d) :: bytesToWords rest
  | _ => []

/-- Extend a 16-word chunk by one schedule word. -/
def scheduleStep (w : List Nat) : List Nat :=
  let n := w.length
  w ++ [add32 (add32 (sigLow1 (w.getD (n - 2) 0)) (w.getD (n - 7) 0))
              (add32 (sigLow0 (w.getD (n - 15) 0)) (w.getD (n - 16) 0))]

def fullSchedule (w16 : List Nat) : List Nat :=
  (List.range 48).foldl (fun acc _ => scheduleStep acc) w16

def compressStep (st : List Nat) (kw : Nat × Nat) : List Nat :=
  match st with
  | [a, b, c, d, e, f, g, h] =>
    let t1 := add32 h (add32 (sigUp1 e) (add32 (chFun e f g) (add32 kw.1 kw.2)))
    let t2 := add32 (sigUp0 a) (majFun a b c)
    [add32 t1 t2, a, b, c, add32 d t1, e, f, g]
  | other => other

def compressChunk (h : List Nat) (chunk : List Nat) : List Nat :=
  let w := fullSchedule (bytesToWords chunk)
  let st := (K256.zip w).foldl compressStep h
  List.zipWith add32 h st

/-- Big-endian 8-byte encoding of a length (in bits). -/
def beBytes8 (n : Nat) : List Nat :=
  (List.range 8).map (fun i => n / 2 ^ (8 * (7 - i)) % 256)

/-- SHA-256 padding: `0x80`, zeros to 56 mod 64, then the 64-bit bit length. -/
def padMessage (msg : List Nat) : List Nat :=
  msg ++ 128 :: List.replicate ((119 - msg.length % 64) % 64) 0 ++ beBytes8 (8 * msg.length)

def sha256Chunks (h : List Nat) (l : List Nat) : List Nat :=
  match l with
  | [] => h
  | x :: rest =>
    sha256Chunks (compressChunk h (List.take 64 (x :: rest))) (List.drop 64 (x :: rest))
termination_by l.length
decreasing_by simp [List.length_drop]; omega

/-- SHA-256 digest (32 bytes) of a byte list. -/
def sha256 (msg : List Nat) : List Nat :=
  (sha256Chunks H256 (padMessage msg)).foldr
    (fun w acc => [w / 16777216 % 256, w / 65536 % 256, w / 256 % 256, w % 256] ++ acc) []

/-! ## JSON values (the fragment of `serde_json::Value` the sources produce) -/

/-- JSON values reachable from `BlockData` serialization: every field of the
record variants is a `String` or an `Option<String>`. -/
inductive Json
  | null
  | str (s : String)
deriving DecidableEq, Repr

/-- JSON string escaping as performed by `serde_json`: `"` and `\` get a
backslash, the control characters BS/TAB/LF/FF/CR get their short forms,
the remaining control characters become `\u00xx` (lowercase hex), and all
other characters are emitted verbatim. -/
def escapeChar (c : Char) : List Char :=
  if c = '"' then ['\\', '"']
  else if c = '\\' then ['\\', '\\']
  else if c.toNat = 8 then ['\\', 'b']
  else if c.toNat = 9 then ['\\', 't']
  else if c.toNat = 10 then ['\\', 'n']
  else if c.toNat = 12 then ['\\', 'f']
  else if c.toNat = 13 then ['\\', 'r']
  else if c.toNat < 32 then ['\\', 'u', '0', '0', hexChar (c.toNat / 16), hexChar (c.toNat % 16)]
  else [c]

def jsonEscape (s : String) : String :=
  String.mk (s.data.foldr (fun c acc => escapeChar c ++ acc) [])

/-- Compact rendering of a JSON value, as `serde_json`'s `Display`/`to_string`. -/
def Json.render : Json → String
  | .null => "null"
  | .str s => "\"" ++ jsonEscape s ++ "\""

/-! ## BlockData (`src/blockchain/block.rs`) -/

/-- `BlockData`, the tagged payload enum (`#[serde(tag = "type")]`). -/
inductive BlockData
  | Genesis
  | User (display_name username biography : String)
  /-- Modelled from the spec: the declaration of this variant is absent from
  the provided `block.rs` (the enum there lists only `Genesis`, `User`,
  `Post`), but `BlockData::UserUpdate { display_name, biography }` is
  constructed in `src/api/users.rs` and matched in
  `src/blockchain/index.rs`, so the declaration itself is the missing
  piece; the spec gives it as `UserUpdate{display_name, biography}`. -/
  | UserUpdate (display_name biography : String)
  | Post (body : String) (reply : Option String)
deriving DecidableEq, Repr

/-- The `type` discriminator serde writes for each variant. -/
def BlockData.tag : BlockData → String
  | .Genesis => "Genesis"
  | .User _ _ _ => "User"
  | .UserUpdate _ _ => "UserUpdate"
  | .Post _ _ => "Post"

/-- The (key, value) fields of each variant, in declaration order — the
order in which `serde_json::to_string` emits them after the tag. -/
def BlockData.jsonFields : BlockData → List (String × Json)
  | .Genesis => []
  | .User dn un bio => [("display_name", .str dn), ("username", .str un), ("biography", .str bio)]
  | .UserUpdate dn bio => [("display_name", .str dn), ("biography", .str bio)]
  | .Post body reply =>
      [("body", .str body), ("reply", match reply with | none => .null | some r => .str r)]

/-- `BlockData::to_json`: compact `serde_json::to_string` of the internally
tagged enum — the `type` key first, then the fields in declaration order. -/
def BlockData.toJson (d : BlockData) : String :=
  "\x7b" ++ String.intercalate ","
      ((("type", Json.str d.tag) :: d.jsonFields).map
        (fun kv => "\"" ++ jsonEscape kv.1 ++ "\":" ++ kv.2.render)) ++ "\x7d"

/-- Insert into a key-sorted association list (Rust `String` order on keys);
the shape of `serde_json`'s object map (a `BTreeMap`). -/
def insertByKey (e : String × Json) : List (String × Json) → List (String × Json)
  | [] => [e]
  | f :: fs => if strLtB f.1 e.1 then f :: insertByKey e fs else e :: f :: fs

def sortByKey : List (String × Json) → List (String × Json)
  | [] => []
  | e :: es => insertByKey e (sortByKey es)

/-- The `serde_json::Value::Object` obtained by parsing `to_json d` back
(`serde_json::from_str` in `to_string_for_signing`): the same entries —
the `type` tag plus the variant's fields — held in a `BTreeMap`, i.e.
sorted by key. -/
def parsedValue (d : BlockData) : List (String × Json) :=
  sortByKey (("type", Json.str d.tag) :: d.jsonFields)

/-- `BTreeMap::remove "type"` on the parsed object. -/
def removeKey (k : String) (l : List (String × Json)) : List (String × Json) :=
  l.filter (fun kv => !(kv.1 == k))

/-- Stable insertion into a sorted string list; composing these is Rust's
stable `Vec::sort` for the small lists at hand. -/
def insertStr (x : String) : List String → List String
  | [] => [x]
  | y :: ys => if strLtB y x then y :: insertStr x ys else x :: y :: ys

def sortStrings : List String → List String
  | [] => []
  | x :: xs => insertStr x (sortStrings xs)

/-- `BlockData::to_string_for_signing`: serialize to JSON, parse back to a
`Value`, drop the `type` key, render each entry as `key=<json-value>`
(`format!("{}={}", key, value)`), sort, and join with `|`. -/
def BlockData.toStringForSigning (d : BlockData) : String :=
  String.intercalate "|"
    (sortStrings ((removeKey "type" (parsedValue d)).map
      (fun kv => kv.1 ++ "=" ++ kv.2.render)))

/-! ## Blocks and hashing (`src/blockchain/block.rs`) -/

structure Block where
  index      : Nat
  timestamp  : Nat
  nonce      : Nat
  data       : BlockData
  prev_hash  : String
  hash       : String
  public_key : String
  signature  : String
deriving DecidableEq, Repr

structure PendingBlock where
  timestamp  : Nat
  data       : BlockData
  public_key : String
  signature  : String
deriving DecidableEq, Repr

/-- The state of an incremental `Sha256` hasher: the bytes fed so far. -/
def HasherUpdate (h : List Nat) (s : String) : List Nat := h ++ utf8Bytes s

def HasherFinalizeHex (h : List Nat) : String := bytesToHex (sha256 h)

/-- `Block::hash_block`: feed the string forms of `index`, `timestamp`,
`nonce`, the JSON of `data`, `signature`, `public_key`, `prev_hash` into a
`Sha256` hasher and render the digest as lowercase hex. -/
def Block.hashBlock (b : Block) : String :=
  HasherFinalizeHex
    (HasherUpdate
      (HasherUpdate
        (HasherUpdate
          (HasherUpdate
            (HasherUpdate
              (HasherUpdate
                (HasherUpdate [] (toString b.index))
                (toString b.timestamp))
              (toString b.nonce))
            b.data.toJson)
          b.signature)
        b.public_key)
      b.prev_hash)

/-- `Block::difficulty`: the fixed value 3. -/
def Block.difficulty (_ : Block) : Nat := 3

/-- `difficulty`-many `'0'` characters, i.e. `"0".repeat(difficulty)`. -/
def zeroTarget (n : Nat) : String := String.mk (List.replicate n '0')

/-- `Block::new`: build the block with the given timestamp (`SystemTime::now`
is external, so the time is a parameter), empty key/signature, nonce 0 and
an empty placeholder hash, then set `hash` from `hash_block`. -/
def Block.new (data : BlockData) (index : Nat) (previousHash : String) (now : Nat) : Block :=
  let b : Block :=
    { index := index, timestamp := now, nonce := 0, data := data,
      prev_hash := previousHash, hash := "", public_key := "", signature := "" }
  { b with hash := b.hashBlock }

/-- `PendingBlock::validate_size`: the per-variant byte-length limits. -/
def PendingBlock.validateSize (p : PendingBlock) : Except String Unit :=
  match p.data with
  | .Post body _ =>
      if 300 < utf8Len body then .error "Post size exceeds 300 characters." else .ok ()
  | .User dn un bio =>
      if 255 < utf8Len un then .error "Username exceeds 255 characters."
      else if 255 < utf8Len dn then .error "Display name exceeds 255 characters."
      else if 300 < utf8Len bio then .error "Biography exceeds 300 characters."
      else .ok ()
  | _ => .ok ()

/-- The model of `sign.rs::validate_signature` (public key hex, signature
hex, message) after `.map_err(|e| e.to_string())`: its Ed25519 core is the
external `ed25519_dalek` crate, so the chain operations are parameterized
over this oracle. -/
def VSig := String → String → String → Except String Unit

/-- `Block::validate_signature`: verify over the canonical signing string. -/
def Block.validateSig (vsig : VSig) (b : Block) : Except String Unit :=
  vsig b.public_key b.signature b.data.toStringForSigning

/-- `PendingBlock::validate_signature`. -/
def PendingBlock.validateSig (vsig : VSig) (p : PendingBlock) : Except String Unit :=
  vsig p.public_key p.signature p.data.toStringForSigning

/-! ## Storage (`src/blockchain/store.rs`)

The store is a heed/LMDB database with key codec `U64<NativeEndian>`
(little-endian on the supported targets) and no integer-key flag, so LMDB
orders entries byte-wise on the little-endian encoding of the index. The
model is the association list of entries in exactly that iteration order. -/

/-- The 8 bytes of a `u64` in native (little-endian) order — the stored key. -/
def leBytes (n : Nat) : List Nat := (List.range 8).map (fun i => n / 256 ^ i % 256)

/-- LMDB's key order on two indexes: byte-wise on the encoded keys. -/
def lmdbLt (i j : Nat) : Bool := lexLtBytes (leBytes i) (leBytes j)

/-- The store contents, as the list of `(index, block)` entries in LMDB
iteration order (ascending in `lmdbLt`). -/
def Storage := List (Nat × Block)
deriving DecidableEq

/-- `Storage::put_block`: write-or-overwrite at key `block.index`,
keeping the entries in LMDB key order. -/
def Storage.putBlock (s : Storage) (b : Block) : Storage :=
  match s with
  | [] => [(b.index, b)]
  | (k, x) :: rest =>
    if b.index = k then (b.index, b) :: rest
    else if lmdbLt b.index k then (b.index, b) :: (k, x) :: rest
    else (k, x) :: Storage.putBlock rest b

/-- `Storage::get_block`: point lookup by key. -/
def Storage.getBlock (s : Storage) (i : Nat) : Option Block :=
  (s.find? (fun kv => kv.1 == i)).map (fun kv => kv.2)

/-- `Storage::top_block`: iterate the database and take the last entry;
`none` models the `unwrap` panic on an empty store. -/
def Storage.topBlockQ (s : Storage) : Option Block :=
  (s.map (fun kv => kv.2)).getLast?

/-- `Storage::get_height`: the index of `top_block`. -/
def Storage.getHeightQ (s : Storage) : Option Nat :=
  (s.topBlockQ).map (fun b => b.index)

/-! ## Chain (`src/blockchain/chain.rs`) -/

structure Blockchain where
  mpool : List PendingBlock
  store : Storage
deriving DecidableEq

/-- `Blockchain::len`: `store.get_height().unwrap() as usize`. -/
def Blockchain.chainLenQ (c : Blockchain) : Option Nat := c.store.getHeightQ

/-- `Blockchain::at`: read-through to the store. -/
def Blockchain.at' (c : Blockchain) (i : Nat) : Option Block := c.store.getBlock i

/-- `Blockchain::validate_hash`: the previous-hash check against the current
top block, then the difficulty check; `none` models the panic of
`top_block().unwrap()` on an empty store. -/
def Blockchain.validateHash (c : Blockchain) (b : Block) : Option (Except String Unit) :=
  let target := zeroTarget b.difficulty
  match c.store.topBlockQ with
  | none => none
  | some lblock =>
    if b.prev_hash ≠ lblock.hash then
      some (.error "Block hash did not match previous hash.")
    else if ¬ strStartsWith b.hash target then
      some (.error "Block hash did not meet difficulty.")
    else some (.ok ())

/-- The username/public-key scan of `validate_user`: for every index `i` in
`0..=get_height()`, fetch the block (`none` models the `unwrap` panic on a
missing entry) and record `username` and `public_key` of `User` blocks. -/
def scanUserSets (s : Storage) : Option (List String × List String) :=
  match s.getHeightQ with
  | none => none
  | some h =>
    (List.range (h + 1)).foldl
      (fun acc i =>
        match acc with
        | none => none
        | some (ns, ps) =>
          match s.getBlock i with
          | none => none
          | some blk =>
            match blk.data with
            | .User _ un _ => some (ns ++ [un], ps ++ [blk.public_key])
            | _ => some (ns, ps))
      (some ([], []))

/-- `Blockchain::validate_user`: uniqueness for `User` blocks, registration
for `Post` blocks, and no check at all for the other variants. -/
def Blockchain.validateUser (c : Blockchain) (b : Block) : Option (Except String Unit) :=
  match scanUserSets c.store with
  | none => none
  | some (ns, ps) =>
    match b.data with
    | .User _ un _ =>
      if ns.contains un then
        some (.error ("Username '" ++ un ++ "' is already taken."))
      else if ps.contains b.public_key then
        some (.error ("Public key '" ++ b.public_key ++ "' is already registered."))
      else some (.ok ())
    | .Post _ _ =>
      if ps.contains b.public_key then some (.ok ())
      else some (.error ("Public key '" ++ b.public_key ++ "' is not registered."))
    | _ => some (.ok ())

/-- `Blockchain::add_block`: for `index > 0` run the signature, hash and
user checks in that order, returning the first failure with the chain
untouched; then (or immediately, for index 0) write the block to the
store. The result pairs the updated chain with the `Result`; `none`
models a panic inside the checks. -/
def Blockchain.addBlock (vsig : VSig) (c : Blockchain) (b : Block) :
    Option (Blockchain × Except String Unit) :=
  if 0 < b.index then
    match b.validateSig vsig with
    | .error m => some (c, .error m)
    | .ok _ =>
      match c.validateHash b with
      | none => none
      | some (.error m) => some (c, .error m)
      | some (.ok _) =>
        match c.validateUser b with
        | none => none
        | some (.error m) => some (c, .error m)
        | some (.ok _) => some ({ c with store := c.store.putBlock b }, .ok ())
  else some ({ c with store := c.store.putBlock b }, .ok ())

/-- `Blockchain::push_mempool`: validate signature then size; on success
push onto the end of the pool. -/
def Blockchain.pushMempool (vsig : VSig) (c : Blockchain) (p : PendingBlock) :
    Blockchain × Except String Unit :=
  match p.validateSig vsig with
  | .error m => (c, .error m)
  | .ok _ =>
    match p.validateSize with
    | .error m => (c, .error m)
    | .ok _ => ({ c with mpool := c.mpool ++ [p] }, .ok ())

/-- `Blockchain::new`: open the persisted store, then `add_block` a fresh
genesis block (`Block::new(Genesis, 0, "0")` at the current time),
ignoring the `Result`. -/
def Blockchain.newChain (vsig : VSig) (persisted : Storage) (now : Nat) : Blockchain :=
  let c : Blockchain := { mpool := [], store := persisted }
  match c.addBlock vsig (Block.new .Genesis 0 "0" now) with
  | some (c', _) => c'
  | none => c

/-! ## P2P messages and handlers (`src/p2p/message.rs`, `node.rs`, `p2p.rs`) -/

inductive MessageData
  | Handshake (version peerId : String)
  | PeerDiscovery
  | PeerGossip (peers : List String)
  | BlockchainTx (block : Block)
  | BlockRequest (index : Nat)
  | BlockResponse (block : Block)
  | Chat (message : String)
deriving DecidableEq, Repr

/-- The `BlockResponse` arm of `Node::handle_message` (`node.rs`): apply
`add_block` (ignoring its `Result`), then pick a random peer —
`get_random_peer().unwrap()`, which panics when no peer is known — and
send it `BlockRequest{index: block.index + 1}`. The random choice is
external, so the chosen peer is a parameter; the result is the updated
chain and the list of (receiver, payload) messages sent. -/
def handleBlockResponseNode (vsig : VSig) (c : Blockchain) (b : Block)
    (randomPeer : Option String) : Option (Blockchain × List (String × MessageData)) :=
  match c.addBlock vsig b with
  | none => none
  | some (c', _res) =>
    match randomPeer with
    | none => none
    | some peer => some (c', [(peer, MessageData.BlockRequest (b.index + 1))])

/-- The `BlockResponse` arm of `handle_message` in `p2p.rs` (the handler
`main` wires up): apply `add_block`, ignore its `Result`, send nothing. -/
def handleBlockResponseP2p (vsig : VSig) (c : Blockchain) (b : Block) :
    Option (Blockchain × List (String × MessageData)) :=
  (c.addBlock vsig b).map (fun x => (x.1, []))

/-- `Node::sync` (`node.rs`): if a random peer is available, send it
`BlockRequest{index: chain.len()}`; with no peer do nothing. `none`
models the panic of `len()` on an empty store. -/
def syncNode (c : Blockchain) (randomPeer : Option String) :
    Option (List (String × MessageData)) :=
  match randomPeer with
  | none => some []
  | some peer => (c.chainLenQ).map (fun n => [(peer, MessageData.BlockRequest n)])

/-- The `Discovered` arm of `handle_event` in `p2p.rs`: send the newly
discovered peer `BlockRequest{index: chain.len() + 1}`. -/
def handleDiscoveredP2p (c : Blockchain) (peer : String) :
    Option (List (String × MessageData)) :=
  (c.chainLenQ).map (fun n => [(peer, MessageData.BlockRequest (n + 1))])

deriving instance DecidableEq for Except

/-! ## Spec-side definitions (for refinement comparisons) -/

/-- Defined from the spec's words for the canonical signing string:
"serialize `data` as JSON, remove the `type` discriminator, then render
the remaining fields as `key=<json-value>` strings sorted lexicographically
and joined by `|`" — i.e. the tag entry and the fields of the serialized
object, with the `type` entry removed, rendered and sorted. -/
def canonicalSigningSpec (d : BlockData) : String :=
  String.intercalate "|"
    (sortStrings (((("type", Json.str d.tag) :: d.jsonFields).filter
        (fun kv => !(kv.1 == "type"))).map (fun kv => kv.1 ++ "=" ++ kv.2.render)))

/-- Defined from the spec's words for invariant (I5) — "`body ≤ 300`,
`username ≤ 255`, `display_name ≤ 255`, `biography ≤ 300` (Unicode code
points, conservatively bytes)" — applied to every field those names
denote, so in particular to the `display_name` and `biography` of a
`UserUpdate` payload. -/
def sizeWithinLimits : BlockData → Prop
  | .Genesis => True
  | .Post body _ => utf8Len body ≤ 300
  | .User dn un bio => utf8Len un ≤ 255 ∧ utf8Len dn ≤ 255 ∧ utf8Len bio ≤ 300
  | .UserUpdate dn bio => utf8Len dn ≤ 255 ∧ utf8Len bio ≤ 300

/-- The limits `validate_size` actually enforces: `Post.body` and the
three `User` fields only — its catch-all arm lets `Genesis` and
`UserUpdate` payloads through unchecked. -/
def sizeLimitsChecked : BlockData → Prop
  | .Post body _ => utf8Len body ≤ 300
  | .User dn un bio => utf8Len un ≤ 255 ∧ utf8Len dn ≤ 255 ∧ utf8Len bio ≤ 300
  | _ => True

/-- An admission-time user-check violation with respect to the username
and public-key sets gathered by the `validate_user` scan: a `User` block
whose username or key was already recorded, or a `Post` block whose key
was not. -/
def admissionViolation (b : Block) (ns ps : List String) : Prop :=
  (∃ dn un bio, b.data = BlockData.User dn un bio
      ∧ (ns.contains un = true ∨ ps.contains b.public_key = true))
  ∨ (∃ body reply, b.data = BlockData.Post body reply ∧ ps.contains b.public_key = false)

/-! ## Concrete instances used as witnesses and counterexamples -/

/-- A signature oracle that accepts: the behaviour of
`validate_signature` on a correctly signed record. -/
def vsigAccept : VSig := fun _ _ _ => .ok ()

/-- A signature oracle that rejects, with `ValidationError`'s
`SignatureVerificationFailed` rendering. -/
def vsigReject : VSig := fun _ _ _ => .error "Signature verification failed"

def emptyStorage : Storage := []

/-- A block record with a given index and hash (remaining fields inert);
`add_block` and the store never recompute hashes, so stored blocks are
arbitrary records. -/
def mkBlk (i : Nat) (h : String) : Block :=
  { index := i, timestamp := 0, nonce := 0, data := .Genesis,
    prev_hash := "", hash := h, public_key := "", signature := "" }

/-- A stored genesis-position block. -/
def blkGen : Block :=
  { index := 0, timestamp := 0, nonce := 0, data := .Genesis,
    prev_hash := "0", hash := "genhash", public_key := "", signature := "" }

/-- A pending post, sitting in the pool. -/
def pendPost : PendingBlock :=
  { timestamp := 3, data := .Post "hi" none, public_key := "pkA", signature := "s0" }

/-- A pending `UserUpdate` whose biography is 400 bytes — beyond the
spec's 300-byte limit. -/
def pendUUbig : PendingBlock :=
  { timestamp := 4, data := .UserUpdate "D" (String.mk (List.replicate 400 'a')),
    public_key := "pkA", signature := "s9" }

/-- A one-block chain whose pool holds one pending record. -/
def chainOne : Blockchain := { mpool := [pendPost], store := [(0, blkGen)] }

/-- An unregistered `UserUpdate` block that extends `chainOne` correctly
(matching `prev_hash`, difficulty met). -/
def blkUU : Block :=
  { index := 1, timestamp := 5, nonce := 0, data := .UserUpdate "Dee" "newbio",
    prev_hash := "genhash", hash := "000abc", public_key := "pkX", signature := "sig" }

/-- A block whose `prev_hash` does not match `chainOne`'s top. -/
def blkBadPrev : Block :=
  { index := 1, timestamp := 0, nonce := 0, data := .Genesis,
    prev_hash := "WRONG", hash := "000x", public_key := "", signature := "" }

/-- A replacement block at index 0. -/
def blkZero : Block := mkBlk 0 "replacedhash"

/-- The store holding indexes 0, 1 and 256, written through `put_block`. -/
def store256 : Storage :=
  Storage.putBlock (Storage.putBlock (Storage.putBlock emptyStorage (mkBlk 0 "h0"))
    (mkBlk 1 "h1")) (mkBlk 256 "h256")

/-- A registered user block at index 1. -/
def blkAlice : Block :=
  { index := 1, timestamp := 1, nonce := 0, data := .User "A" "alice" "",
    prev_hash := "genhash", hash := "000a1", public_key := "pkA", signature := "sA" }

/-- A chain with one registered user `alice`. -/
def chainUsers : Blockchain := { mpool := [], store := [(0, blkGen), (1, blkAlice)] }

/-- A second registration of the username `alice` under a fresh key,
extending `chainUsers` correctly. -/
def blkDup : Block :=
  { index := 2, timestamp := 2, nonce := 0, data := .User "B" "alice" "",
    prev_hash := "000a1", hash := "000d2", public_key := "pkB", signature := "sB" }

/-- The field contents of a fresh genesis block before its hash is set:
index 0, the given timestamp, nonce 0, `prev_hash = "0"`, empty key and
signature, empty placeholder hash. -/
def genesisSeed (now : Nat) : Block :=
  { index := 0, timestamp := now, nonce := 0, data := .Genesis,
    prev_hash := "0", hash := "", public_key := "", signature := "" }

/-! ## Helper lemmas -/

theorem utf8Enc_append (l₁ l₂ : List Char) :
    utf8Enc (l₁ ++ l₂) = utf8Enc l₁ ++ utf8Enc l₂ := by
  induction l₁ with
  | nil => rfl
  | cons c cs ih => simp [utf8Enc, ih]

theorem utf8Bytes_append (a b : String) :
    utf8Bytes (a ++ b) = utf8Bytes a ++ utf8Bytes b := by
  simp [utf8Bytes, String.data_append, utf8Enc_append]

theorem getBlock_putBlock (s : Storage) (b : Block) :
    Storage.getBlock (Storage.putBlock s b) b.index = some b := by
  induction s with
  | nil => simp [Storage.putBlock, Storage.getBlock, List.find?]
  | cons kv rest ih =>
    obtain ⟨k, x⟩ := kv
    by_cases hk : b.index = k
    · simp [Storage.putBlock, hk, Storage.getBlock, List.find?]
    · by_cases hlt : lmdbLt b.index k
      · simp [Storage.putBlock, hk, hlt, Storage.getBlock, List.find?]
      · have hne : (k == b.index) = false := by
          simp [beq_iff_eq]; omega
        simpa [Storage.putBlock, hk, hlt, Storage.getBlock, List.find?, hne] using ih

theorem topBlockQ_of_scan (s : Storage) (x : List String × List String)
    (h : scanUserSets s = some x) : ∃ t, Storage.topBlockQ s = some t := by
  unfold scanUserSets at h
  cases hh : Storage.getHeightQ s with
  | none => rw [hh] at h; exact absurd h (by simp)
  | some n =>
    unfold Storage.getHeightQ at hh
    cases ht : Storage.topBlockQ s with
    | none => rw [ht] at hh; exact absurd hh (by simp)
    | some t => exact ⟨t, rfl⟩

/-! ## Claim theorems -/

/-- C3: the canonical signing string is a pure function of `data`,
it equals the spec's construction (serialize as JSON, remove the `type`
discriminator, render the remaining fields as `key=<json-value>`, sort
lexicographically, join with `|`), and the entry list it is built from
never retains the `type` key. -/
theorem canonical_signing_string_props (d d' : BlockData) (h : d = d') :
    BlockData.toStringForSigning d = BlockData.toStringForSigning d'
    ∧ BlockData.toStringForSigning d = canonicalSigningSpec d
    ∧ ((removeKey "type" (parsedValue d)).map (fun kv => kv.1)).contains "type" = false := by
  subst h
  refine ⟨rfl, ?_, ?_⟩ <;> cases d <;> rfl

/-- C4: `hash_block` is the lowercase-hex SHA-256 digest of the
concatenation of the decimal strings of `index`, `timestamp` and `nonce`,
the canonical JSON of `data`, then `signature`, `public_key` and
`prev_hash`, in that order. -/
theorem hash_block_concatenation (b : Block) :
    Block.hashBlock b = bytesToHex (sha256 (utf8Bytes
      (toString b.index ++ toString b.timestamp ++ toString b.nonce ++
       BlockData.toJson b.data ++ b.signature ++ b.public_key ++ b.prev_hash))) := by
  simp [Block.hashBlock, HasherUpdate, HasherFinalizeHex, utf8Bytes_append, List.append_assoc]

/-- C5: on the store holding indexes {0, 1, 256} (all written through
`put_block`), `top_block` returns the block at index 1 — the last entry in
byte-wise order of the little-endian-encoded keys — and `get_height`
returns 1, although index 256 is present; the stored block with the
highest index is not returned. -/
theorem storage_top_block_endianness_bug :
    Storage.topBlockQ store256 = some (mkBlk 1 "h1")
    ∧ Storage.getHeightQ store256 = some 1
    ∧ Storage.getBlock store256 256 = some (mkBlk 256 "h256")
    ∧ ¬ Storage.getHeightQ store256 = some 256 := by decide

/-- C1: for a block with positive index, `add_block` runs the signature
check, then the previous-hash check against the current top block, then
the difficulty check (the hash must begin with `difficulty`-many `'0'`
characters), in that order; the first failure is returned as a descriptive
error with the chain — store and pending pool alike — unchanged, and only
after every check passes is the store written. -/
theorem add_block_validation_order (vsig : VSig) (c : Blockchain) (b t : Block)
    (hidx : 0 < b.index) (htop : Storage.topBlockQ c.store = some t) :
    Blockchain.addBlock vsig c b =
      (match vsig b.public_key b.signature (BlockData.toStringForSigning b.data) with
       | .error m => some (c, .error m)
       | .ok _ =>
         if b.prev_hash ≠ t.hash then
           some (c, Except.error "Block hash did not match previous hash.")
         else if ¬ strStartsWith b.hash (zeroTarget (Block.difficulty b)) then
           some (c, Except.error "Block hash did not meet difficulty.")
         else
           match Blockchain.validateUser c b with
           | none => none
           | some (.error m) => some (c, Except.error m)
           | some (.ok _) => some ({ c with store := Storage.putBlock c.store b }, Except.ok ())) := by
  unfold Blockchain.addBlock Block.validateSig Blockchain.validateHash
  rw [if_pos hidx, htop]
  cases vsig b.public_key b.signature (BlockData.toStringForSigning b.data) with
  | error m => rfl
  | ok u =>
    by_cases h1 : b.prev_hash = t.hash
    · by_cases h2 : strStartsWith b.hash (zeroTarget (Block.difficulty b))
      · simp [h1, h2]
      · simp [h1, h2]
    · simp [h1]

/-- C2 counterexample: `chainOne` holds no `User` registration at all, yet
the unregistered `UserUpdate` block `blkUU` is accepted by `add_block`
(signature oracle accepting, previous hash and difficulty in order):
`validate_user` checks registration only for `Post` data, so the claim's
"a Post or a UserUpdate block is rejected unless its public key was
registered" fails on UserUpdate data. -/
theorem add_block_accepts_unregistered_userupdate :
    Blockchain.addBlock vsigAccept chainOne blkUU
      = some ({ mpool := [pendPost], store := [(0, blkGen), (1, blkUU)] }, Except.ok ())
    ∧ blkUU.data = BlockData.UserUpdate "Dee" "newbio"
    ∧ (List.map (fun kv => kv.2.data) chainOne.store).all
        (fun d => match d with | BlockData.User _ _ _ => false | _ => true) = true := by
  decide

/-- C2 amended: at admission via `add_block` (index > 0), with the
username/public-key sets gathered by the `validate_user` scan over indexes
`0..=get_height()`: a `User` block sharing a scanned username or public
key is rejected, and a `Post` block whose public key was not scanned is
rejected — in each case with an error and the chain unchanged. (`UserUpdate`
data undergoes no such check; and the scan covers `0..=get_height()`,
not necessarily every stored block.) -/
theorem add_block_user_checks_amended (vsig : VSig) (c : Blockchain) (b : Block)
    (ns ps : List String)
    (hidx : 0 < b.index) (hscan : scanUserSets c.store = some (ns, ps))
    (hviol : admissionViolation b ns ps) :
    ∃ m, Blockchain.addBlock vsig c b = some (c, Except.error m) := by
  obtain ⟨t, htop⟩ := topBlockQ_of_scan c.store (ns, ps) hscan
  unfold Blockchain.addBlock Block.validateSig Blockchain.validateHash
  rw [if_pos hidx, htop]
  cases vsig b.public_key b.signature (BlockData.toStringForSigning b.data) with
  | error m => exact ⟨m, rfl⟩
  | ok u =>
    by_cases h1 : b.prev_hash = t.hash
    · by_cases h2 : strStartsWith b.hash (zeroTarget (Block.difficulty b))
      · unfold Blockchain.validateUser
        rw [hscan]
        rcases hviol with ⟨dn, un, bio, hdata, hdup⟩ | ⟨body, reply, hdata, hreg⟩
        · rw [hdata]
          rcases hdup with hun | hpk
          · have hun' : un ∈ ns := by simpa using hun
            exact ⟨"Username '" ++ un ++ "' is already taken.", by simp [h1, h2, hun']⟩
          · have hpk' : b.public_key ∈ ps := by simpa using hpk
            by_cases hun2 : un ∈ ns
            · exact ⟨"Username '" ++ un ++ "' is already taken.", by simp [h1, h2, hun2]⟩
            · exact ⟨"Public key '" ++ b.public_key ++ "' is already registered.",
                by simp [h1, h2, hun2, hpk']⟩
        · rw [hdata]
          have hreg' : ¬ b.public_key ∈ ps := by simpa using hreg
          exact ⟨"Public key '" ++ b.public_key ++ "' is not registered.",
            by simp [h1, h2, hreg']⟩
      · exact ⟨"Block hash did not meet difficulty.", by simp [h1, h2]⟩
    · exact ⟨"Block hash did not match previous hash.", by simp [h1]⟩

set_option maxRecDepth 8000 in
/-- C6 counterexample: the pending `UserUpdate` `pendUUbig` carries a
400-byte biography — outside the spec's size limits — and its signature
is accepted, yet `push_mempool` succeeds and appends it to the pool:
`validate_size` has no `UserUpdate` arm, so the claimed "succeeds only if
the data is within the size limits" is false. -/
theorem push_mempool_accepts_oversize_userupdate :
    (Blockchain.pushMempool vsigAccept chainUsers pendUUbig).2 = Except.ok ()
    ∧ (Blockchain.pushMempool vsigAccept chainUsers pendUUbig).1.mpool
        = chainUsers.mpool ++ [pendUUbig]
    ∧ vsigAccept pendUUbig.public_key pendUUbig.signature
        (BlockData.toStringForSigning pendUUbig.data) = Except.ok ()
    ∧ ¬ sizeWithinLimits pendUUbig.data := by
  refine ⟨rfl, rfl, rfl, fun h => absurd h.2 (by decide)⟩

/-- C6 amended: `push_mempool` succeeds exactly when the signature oracle
accepts the canonical signing string of the pending data and the data is
within the limits `validate_size` enforces (`Post.body ≤ 300` bytes and
the three `User` fields; `Genesis` and `UserUpdate` payloads are not
size-checked); on success the record is appended at the end of the pool
(arrival order) with the store untouched, and on failure the whole chain
is unchanged. -/
theorem push_mempool_spec (vsig : VSig) (c : Blockchain) (p : PendingBlock) :
    ((Blockchain.pushMempool vsig c p).2 = Except.ok () ↔
      (vsig p.public_key p.signature (BlockData.toStringForSigning p.data) = Except.ok ()
        ∧ sizeLimitsChecked p.data))
    ∧ ((Blockchain.pushMempool vsig c p).2 = Except.ok () →
        (Blockchain.pushMempool vsig c p).1 = { c with mpool := c.mpool ++ [p] })
    ∧ (∀ m, (Blockchain.pushMempool vsig c p).2 = Except.error m →
        (Blockchain.pushMempool vsig c p).1 = c) := by
  unfold Blockchain.pushMempool PendingBlock.validateSig
  cases hs : vsig p.public_key p.signature (BlockData.toStringForSigning p.data) with
  | error m => simp
  | ok u =>
    cases u
    unfold PendingBlock.validateSize
    cases hd : p.data with
    | Post body reply =>
      by_cases hb : 300 < utf8Len body
      · simp [hb, sizeLimitsChecked, hd]
      · simp [hb, sizeLimitsChecked, hd, Nat.not_lt.mp hb]
    | User dn un bio =>
      by_cases hu : 255 < utf8Len un
      · simp [hu, sizeLimitsChecked, hd]
      · by_cases hn : 255 < utf8Len dn
        · simp [hu, hn, sizeLimitsChecked, hd]
        · by_cases hbio : 300 < utf8Len bio
          · simp [hu, hn, hbio, sizeLimitsChecked, hd]
          · simp [hu, hn, hbio, sizeLimitsChecked, hd,
              Nat.not_lt.mp hu, Nat.not_lt.mp hn, Nat.not_lt.mp hbio]
    | Genesis => simp [sizeLimitsChecked, hd]
    | UserUpdate dn bio => simp [sizeLimitsChecked, hd]

/-- C7 counterexample: `blkBadPrev`'s append to `chainOne` fails (previous
hash mismatch), yet the `node.rs` BlockResponse handler still sends
`BlockRequest{index: block.index + 1}` to the chosen random peer — the
sync run does not stop on failure. -/
theorem block_response_requests_after_failure :
    Blockchain.addBlock vsigAccept chainOne blkBadPrev
      = some (chainOne, Except.error "Block hash did not match previous hash.")
    ∧ handleBlockResponseNode vsigAccept chainOne blkBadPrev (some "peerA")
      = some (chainOne, [("peerA", MessageData.BlockRequest 2)]) := by decide

/-- C7 amended: on `BlockResponse{b}`, the `node.rs` handler attempts
`add_block(b)` and then — whether the append succeeded or failed — sends
`BlockRequest{index: b.index + 1}` to the chosen random peer (and panics
when no peer is known); the `p2p.rs` handler wired up by `main` attempts
`add_block(b)` and never sends a follow-up request. -/
theorem block_response_behavior (vsig : VSig) (c c' : Blockchain) (b : Block)
    (r : Except String Unit) (p : String)
    (h : Blockchain.addBlock vsig c b = some (c', r)) :
    handleBlockResponseNode vsig c b (some p)
        = some (c', [(p, MessageData.BlockRequest (b.index + 1))])
    ∧ handleBlockResponseP2p vsig c b = some (c', [])
    ∧ handleBlockResponseNode vsig c b none = none := by
  refine ⟨?_, ?_, ?_⟩ <;> simp [handleBlockResponseNode, handleBlockResponseP2p, h]

/-- C8 counterexample: on `chainOne` (height 0), `sync()` sends
`BlockRequest{index: 0}` — `chain.len()`, not `chain.len() + 1`. -/
theorem sync_sends_len_not_succ :
    syncNode chainOne (some "peerA") = some [("peerA", MessageData.BlockRequest 0)]
    ∧ Blockchain.chainLenQ chainOne = some 0
    ∧ ¬ syncNode chainOne (some "peerA") = some [("peerA", MessageData.BlockRequest (0 + 1))] := by
  decide

/-- C8 amended: when a random peer is known, `Node::sync` sends it
`BlockRequest{index: chain.len()}` (the store height, i.e. the top
block's index under the store's iteration order); it is the `Discovered`
handler in `p2p.rs` that sends `BlockRequest{index: chain.len() + 1}`, to
the newly discovered peer. -/
theorem sync_request_index (c : Blockchain) (p : String) (n : Nat)
    (h : Blockchain.chainLenQ c = some n) :
    syncNode c (some p) = some [(p, MessageData.BlockRequest n)]
    ∧ handleDiscoveredP2p c p = some [(p, MessageData.BlockRequest (n + 1))] := by
  constructor <;> simp [syncNode, handleDiscoveredP2p, h]

/-- C9: a block with index 0 is admitted by `add_block` without any
signature/prev-hash/difficulty/user check — for every signature oracle the
result is `Ok` and the store is written at key 0, overwriting any block
already there, with the pool untouched; and `Blockchain::new` builds a
fresh genesis block at the current time (`index 0`, `prev_hash "0"`, the
given timestamp, hash recomputed from those fields by `hash_block`) and
writes it over the persisted store through that same path. -/
theorem genesis_overwrite_spec (vsig : VSig) (c : Blockchain) (b : Block)
    (persisted : Storage) (now : Nat) (h : b.index = 0) :
    Blockchain.addBlock vsig c b
        = some ({ c with store := Storage.putBlock c.store b }, Except.ok ())
    ∧ Storage.getBlock (Storage.putBlock c.store b) 0 = some b
    ∧ (Blockchain.newChain vsig persisted now).store
        = Storage.putBlock persisted (Block.new .Genesis 0 "0" now)
    ∧ (Blockchain.newChain vsig persisted now).mpool = []
    ∧ (Block.new .Genesis 0 "0" now).index = 0
    ∧ (Block.new .Genesis 0 "0" now).timestamp = now
    ∧ (Block.new .Genesis 0 "0" now).hash = Block.hashBlock (genesisSeed now) := by
  refine ⟨?_, ?_, ?_, ?_, rfl, rfl, rfl⟩
  · simp [Blockchain.addBlock, h]
  · rw [← h]; exact getBlock_putBlock c.store b
  · rfl
  · rfl

/-- C10: frame conditions between the chain's two components —
`push_mempool` never modifies the block store (success or failure), and
`add_block` never modifies the pending pool (success or failure). -/
theorem chain_frame_conditions (vsig : VSig) (c c' : Blockchain) (p : PendingBlock)
    (b : Block) (r : Except String Unit)
    (h : Blockchain.addBlock vsig c b = some (c', r)) :
    (Blockchain.pushMempool vsig c p).1.store = c.store ∧ c'.mpool = c.mpool := by
  constructor
  · unfold Blockchain.pushMempool
    cases p.validateSig vsig with
    | error m => rfl
    | ok u =>
      cases p.validateSize with
      | error m => rfl
      | ok v => rfl
  · unfold Blockchain.addBlock at h
    by_cases hi : 0 < b.index
    · rw [if_pos hi] at h
      cases hs : b.validateSig vsig with
      | error m =>
        rw [hs] at h
        simp at h
        rw [← h.1]
      | ok u =>
        rw [hs] at h
        cases hh : Blockchain.validateHash c b with
        | none => rw [hh] at h; simp at h
        | some e =>
          rw [hh] at h
          cases e with
          | error m => simp at h; rw [← h.1]
          | ok v =>
            cases hu : Blockchain.validateUser c b with
            | none => rw [hu] at h; simp at h
            | some e2 =>
              rw [hu] at h
              cases e2 with
              | error m => simp at h; rw [← h.1]
              | ok w =>
                simp at h
                rw [← h.1]
    · rw [if_neg hi] at h
      simp at h; rw [← h.1]

/-! ## Witnesses -/

/-- Witness for C1 at a concrete input: with a rejecting oracle, the
admission of `blkUU` to `chainOne` stops at the signature check and leaves
the chain unchanged. -/
theorem add_block_validation_order_witness :
    Blockchain.addBlock vsigReject chainOne blkUU
      = some (chainOne, Except.error "Signature verification failed") := by
  have h := add_block_validation_order vsigReject chainOne blkUU blkGen (by decide) (by decide)
  simpa [vsigReject] using h

/-- Witness for the amended C2: registering `alice` a second time on
`chainUsers` is rejected with the chain unchanged. -/
theorem add_block_user_checks_amended_witness :
    ∃ m, Blockchain.addBlock vsigAccept chainUsers blkDup
      = some (chainUsers, Except.error m) :=
  add_block_user_checks_amended vsigAccept chainUsers blkDup ["alice"] ["pkA"]
    (by decide) (by decide) (Or.inl ⟨"B", "alice", "", rfl, Or.inl (by decide)⟩)

/-- Witness for C3 at a concrete payload. -/
theorem canonical_signing_string_props_witness :
    BlockData.toStringForSigning (BlockData.Post "hi" none)
        = BlockData.toStringForSigning (BlockData.Post "hi" none)
    ∧ BlockData.toStringForSigning (BlockData.Post "hi" none)
        = canonicalSigningSpec (BlockData.Post "hi" none)
    ∧ ((removeKey "type" (parsedValue (BlockData.Post "hi" none))).map
        (fun kv => kv.1)).contains "type" = false :=
  canonical_signing_string_props (BlockData.Post "hi" none) (BlockData.Post "hi" none) rfl

/-- Witness for C6: an accepted pending post lands at the end of the pool. -/
theorem push_mempool_spec_witness :
    (Blockchain.pushMempool vsigAccept chainOne pendPost).2 = Except.ok ()
    ∧ (Blockchain.pushMempool vsigAccept chainOne pendPost).1
        = { chainOne with mpool := chainOne.mpool ++ [pendPost] } := by
  have h := push_mempool_spec vsigAccept chainOne pendPost
  have hok : (Blockchain.pushMempool vsigAccept chainOne pendPost).2 = Except.ok () :=
    (h.1).mpr ⟨rfl, by show utf8Len "hi" ≤ 300; decide⟩
  exact ⟨hok, h.2.1 hok⟩

/-- Witness for the amended C7 at a concrete failing append. -/
theorem block_response_behavior_witness :
    handleBlockResponseNode vsigAccept chainOne blkBadPrev (some "peerB")
        = some (chainOne, [("peerB", MessageData.BlockRequest 2)])
    ∧ handleBlockResponseP2p vsigAccept chainOne blkBadPrev = some (chainOne, [])
    ∧ handleBlockResponseNode vsigAccept chainOne blkBadPrev none = none := by
  have h := block_response_behavior vsigAccept chainOne chainOne blkBadPrev
    (Except.error "Block hash did not match previous hash.") "peerB" (by decide)
  simpa [blkBadPrev] using h

/-- Witness for the amended C8 on a two-block chain (height 1). -/
theorem sync_request_index_witness :
    syncNode chainUsers (some "peerC") = some [("peerC", MessageData.BlockRequest 1)]
    ∧ handleDiscoveredP2p chainUsers "peerC" = some [("peerC", MessageData.BlockRequest 2)] := by
  have h := sync_request_index chainUsers "peerC" 1 (by decide)
  simpa using h

/-- Witness for C9: an index-0 block overwrites the stored genesis even
under a rejecting signature oracle. -/
theorem genesis_overwrite_spec_witness :
    Blockchain.addBlock vsigReject chainOne blkZero
        = some ({ chainOne with store := Storage.putBlock chainOne.store blkZero }, Except.ok ())
    ∧ Storage.getBlock (Storage.putBlock chainOne.store blkZero) 0 = some blkZero := by
  have h := genesis_overwrite_spec vsigReject chainOne blkZero emptyStorage 7 (by decide)
  exact ⟨h.1, h.2.1⟩

/-- Witness for C10 at a concrete successful append and push. -/
theorem chain_frame_conditions_witness :
    (Blockchain.pushMempool vsigAccept chainOne pendPost).1.store = chainOne.store
    ∧ ({ mpool := [pendPost], store := [(0, blkGen), (1, blkUU)] } : Blockchain).mpool
        = chainOne.mpool := by
  have h := chain_frame_conditions vsigAccept chainOne
    { mpool := [pendPost], store := [(0, blkGen), (1, blkUU)] } pendPost blkUU
    (Except.ok ()) (by decide)
  exact h
